import Mathlib

/-!
Verification of `econml/cate_estimator.py` (CATE estimator base classes).

The numpy arrays handled by this module are rank 0 to 3 arrays of numbers;
we embed them as an inductive type `NP` of nested lists over `Int`
(entry values are exact integers; none of the verified claims concerns
floating-point rounding).  `shape`, `ndim`, `np.repeat(axis=0)`,
elementwise subtraction and the four `np.einsum` contractions used by
`LinearCateEstimator.effect` are translated below.  Elementwise
subtraction is modelled on equally-shaped operands (the only case the
claims exercise); shape mismatches yield `none`, matching numpy's raised
errors.
-/

namespace EconML

/-- A numpy array of rank 0, 1, 2 or 3 with integer entries. -/
inductive NP where
  | a0 (x : Int)
  | a1 (xs : List Int)
  | a2 (xss : List (List Int))
  | a3 (xsss : List (List (List Int)))
deriving DecidableEq

/-- Numpy `np.ndim`. -/
def ndim : NP → Nat
  | .a0 _ => 0
  | .a1 _ => 1
  | .a2 _ => 2
  | .a3 _ => 3

/-- Numpy `np.shape`: axis lengths, inner lengths read from the first slice
(numpy arrays are rectangular, so this agrees with numpy on well-formed data). -/
def shape : NP → List Nat
  | .a0 _ => []
  | .a1 xs => [xs.length]
  | .a2 xss => [xss.length, (xss.headD []).length]
  | .a3 xsss => [xsss.length, (xsss.headD []).length, ((xsss.headD []).headD []).length]

/-- Row count `shape(a)[0]`; `none` models the `IndexError` on a 0-d array. -/
def rows (a : NP) : Option Nat := (shape a).head?

/-- Numpy `np.repeat(a, k, axis=0)`: each axis-0 slice repeated `k` times in place.
`none` models the numpy error on a 0-d array. -/
def npRepeat0 : NP → Nat → Option NP
  | .a0 _, _ => none
  | .a1 xs, k => some (.a1 (List.flatten (xs.map (fun x => List.replicate k x))))
  | .a2 xss, k => some (.a2 (List.flatten (xss.map (fun x => List.replicate k x))))
  | .a3 xsss, k => some (.a3 (List.flatten (xsss.map (fun x => List.replicate k x))))

/-- Elementwise `T1 - T0` on equally-shaped arrays;
`none` on rank or shape mismatch (numpy raises there). -/
def npSub : NP → NP → Option NP
  | .a0 x, .a0 y => some (.a0 (x - y))
  | .a1 xs, .a1 ys =>
    if xs.length = ys.length then
      some (.a1 (List.zipWith (fun a b => a - b) xs ys))
    else none
  | .a2 xss, .a2 yss =>
    if shape (.a2 xss) = shape (.a2 yss) then
      some (.a2 (List.zipWith (fun r s => List.zipWith (fun a b => a - b) r s) xss yss))
    else none
  | .a3 xsss, .a3 ysss =>
    if shape (.a3 xsss) = shape (.a3 ysss) then
      some (.a3 (List.zipWith (fun p q =>
        List.zipWith (fun r s => List.zipWith (fun a b => a - b) r s) p q) xsss ysss))
    else none
  | _, _ => none

/-- Inner product of two vectors (the `t`-axis contraction of einsum). -/
def dot (xs ys : List Int) : Int := (List.zipWith (fun a b => a * b) xs ys).sum

/-- The einsum subscript string `'myt,mt->my'`, as its character list. -/
def esBase : List Char := ['m', 'y', 't', ',', 'm', 't', '-', '>', 'm', 'y']

/-- Subscripts `'my,m->my'`: the subscripts after `.replace('t', '')`. -/
def esMV : List Char := ['m', 'y', ',', 'm', '-', '>', 'm', 'y']

/-- Subscripts `'mt,mt->m'`: the subscripts after `.replace('y', '')`. -/
def esVM : List Char := ['m', 't', ',', 'm', 't', '-', '>', 'm']

/-- Subscripts `'m,m->m'`: the subscripts after replacing both `'t'` and `'y'`. -/
def esVV : List Char := ['m', ',', 'm', '-', '>', 'm']

/-- Python `str.replace(c, '')`: drop every occurrence of the character. -/
def strReplace (s : List Char) (c : Char) : List Char := s.filter (fun x => x != c)

/-- Numpy `np.einsum` restricted to the four subscript strings reachable from
`LinearCateEstimator.effect`.  Axis-length agreement is checked as numpy
does; disagreement (and any other subscripts/rank pairing) yields `none`. -/
def npEinsum (s : List Char) (a b : NP) : Option NP :=
  if s = esBase then
    match a, b with
    | .a3 e, .a2 d =>
      if e.length = d.length ∧ ((e.headD []).headD []).length = (d.headD []).length then
        some (.a2 (List.zipWith (fun em dm => em.map (fun ey => dot ey dm)) e d))
      else none
    | _, _ => none
  else if s = esMV then
    match a, b with
    | .a2 e, .a1 d =>
      if e.length = d.length then
        some (.a2 (List.zipWith (fun em x => em.map (fun ey => ey * x)) e d))
      else none
    | _, _ => none
  else if s = esVM then
    match a, b with
    | .a2 e, .a2 d =>
      if e.length = d.length ∧ (e.headD []).length = (d.headD []).length then
        some (.a1 (List.zipWith dot e d))
      else none
    | _, _ => none
  else if s = esVV then
    match a, b with
    | .a1 e, .a1 d =>
      if e.length = d.length then
        some (.a1 (List.zipWith (fun x y => x * y) e d))
      else none
    | _, _ => none
  else none

/-- The einsum subscripts chosen by `LinearCateEstimator.effect`:
`einsum_str = 'myt,mt->my'`, with `'t'` removed when `ndim(dT) == 1`
(`T` was a vector) and `'y'` removed when `ndim(eff) == ndim(dT)`
(`Y` was a vector). -/
def einsumStr (eff dT : NP) : List Char :=
  let s1 := if ndim dT = 1 then strReplace esBase 't' else esBase
  if ndim eff = ndim dT then strReplace s1 'y' else s1

/-- Source `LinearCateEstimator.effect(X, T0=T0, T1=T1)`.

`xNone` states whether `X is None`; `cme` is the value of
`self.const_marginal_effect(X)` (abstract in the source, supplied by the
subclass).  `BaseCateEstimator._expand_treatments` is the identity, as in
the source.  Mirrors the source line by line: when `X is None` the
constant marginal effect is `np.repeat`-ed `shape(T0)[0]` times along
axis 0; `m = shape(eff)[0]` is evaluated (it can raise on a 0-d `eff`);
`dT = T1 - T0`; the einsum subscripts start as `'myt,mt->my'`, drop `'t'`
when `ndim(dT) == 1` and drop `'y'` when `ndim(eff) == ndim(dT)`. -/
def effect (xNone : Bool) (cme T0 T1 : NP) : Option NP :=
  let effOpt : Option NP :=
    if xNone then
      match rows T0 with
      | some r => npRepeat0 cme r
      | none => none
    else some cme
  match effOpt with
  | none => none
  | some eff =>
    match rows eff with
    | none => none
    | some _ =>
      match npSub T1 T0 with
      | none => none
      | some dT => npEinsum (einsumStr eff dT) eff dT

/-- Source `LinearCateEstimator.marginal_effect(T, X)`: returns
`const_marginal_effect(X)` unchanged, except that when `X is None` it is
`np.repeat`-ed `shape(T)[0]` times along axis 0. -/
def marginalEffect (xNone : Bool) (cme T : NP) : Option NP :=
  if xNone then
    match rows T with
    | some r => npRepeat0 cme r
    | none => none
  else some cme

/-- Entrywise negation of an array. -/
def negNP : NP → NP
  | .a0 x => .a0 (-x)
  | .a1 xs => .a1 (xs.map (fun a => -a))
  | .a2 xss => .a2 (xss.map (fun r => r.map (fun a => -a)))
  | .a3 xsss => .a3 (xsss.map (fun p => p.map (fun r => r.map (fun a => -a))))

/-- All entries of an array, flattened. -/
def entries : NP → List Int
  | .a0 x => [x]
  | .a1 xs => xs
  | .a2 xss => xss.flatten
  | .a3 xsss => (xsss.map List.flatten).flatten

/-! ### Helper lemmas -/

theorem mem_of_zipWith {α β γ : Type} {f : α → β → γ} {x : γ} :
    ∀ {as : List α} {bs : List β}, x ∈ List.zipWith f as bs →
      ∃ a ∈ as, ∃ b ∈ bs, x = f a b := by
  intro as
  induction as with
  | nil => intro bs h; simp at h
  | cons a as ih =>
    intro bs h
    cases bs with
    | nil => simp at h
    | cons b bs =>
      simp only [List.zipWith_cons_cons, List.mem_cons] at h
      rcases h with h | h
      · exact ⟨a, by simp, b, by simp, h⟩
      · rcases ih h with ⟨p, hp, q, hq, hx⟩
        exact ⟨p, by simp [hp], q, by simp [hq], hx⟩

theorem dot_zero_right {ys : List Int} (h : ∀ y ∈ ys, y = 0) (xs : List Int) :
    dot xs ys = 0 := by
  apply List.sum_eq_zero
  intro x hx
  rcases mem_of_zipWith hx with ⟨a, _, b, hb, rfl⟩
  rw [h b hb, mul_zero]

theorem dot_neg_right (xs ys : List Int) : dot xs (ys.map (fun a => -a)) = -dot xs ys := by
  induction xs generalizing ys with
  | nil => simp [dot]
  | cons x xs ih =>
    cases ys with
    | nil => simp [dot]
    | cons y ys =>
      have h := ih ys
      simp only [dot, List.map_cons, List.zipWith_cons_cons, List.sum_cons] at h ⊢
      rw [h]; ring

theorem zipWith_sub_comm_neg (xs ys : List Int) :
    List.zipWith (fun a b => a - b) xs ys =
      (List.zipWith (fun a b => a - b) ys xs).map (fun a => -a) := by
  induction xs generalizing ys with
  | nil => cases ys <;> simp
  | cons x xs ih =>
    cases ys with
    | nil => simp
    | cons y ys => simp [ih ys]

theorem negNP_negNP (a : NP) : negNP (negNP a) = a := by
  cases a <;> simp [negNP, List.map_map, Function.comp_def]

theorem ndim_negNP (a : NP) : ndim (negNP a) = ndim a := by
  cases a <;> rfl

theorem headD_map_nil {α β : Type} (f : α → β) (xs : List α) (d : α) :
    (xs.map f).headD (f d) = f (xs.headD d) := by
  cases xs <;> simp

theorem shape_negNP (a : NP) : shape (negNP a) = shape a := by
  cases a with
  | a0 x => rfl
  | a1 xs => simp [negNP, shape]
  | a2 xss => cases xss <;> simp [negNP, shape]
  | a3 xsss =>
    cases xsss with
    | nil => simp [negNP, shape]
    | cons p ps => cases p <;> simp [negNP, shape]

theorem zipWith2_sub_comm_neg (xss yss : List (List Int)) :
    List.zipWith (fun r s => List.zipWith (fun a b => a - b) r s) xss yss =
      (List.zipWith (fun r s => List.zipWith (fun a b => a - b) r s) yss xss).map
        (fun r => r.map (fun a => -a)) := by
  induction xss generalizing yss with
  | nil => cases yss <;> simp
  | cons r rs ih =>
    cases yss with
    | nil => simp
    | cons s ss => simp [ih ss, ← zipWith_sub_comm_neg r s]

theorem zipWith3_sub_comm_neg (xsss ysss : List (List (List Int))) :
    List.zipWith (fun p q =>
        List.zipWith (fun r s => List.zipWith (fun a b => a - b) r s) p q) xsss ysss =
      (List.zipWith (fun p q =>
        List.zipWith (fun r s => List.zipWith (fun a b => a - b) r s) p q) ysss xsss).map
        (fun p => p.map (fun r => r.map (fun a => -a))) := by
  induction xsss generalizing ysss with
  | nil => cases ysss <;> simp
  | cons p ps ih =>
    cases ysss with
    | nil => simp
    | cons q qs => simp [ih qs, ← zipWith2_sub_comm_neg p q]

/-- The difference `T1 - T0` is the entrywise negation of `T0 - T1`. -/
theorem npSub_comm_neg (a b : NP) : npSub a b = Option.map negNP (npSub b a) := by
  cases a <;> cases b <;> simp only [npSub] <;> try rfl
  case a0.a0 x y => simp [negNP, neg_sub]
  case a1.a1 xs ys =>
    by_cases hl : xs.length = ys.length
    · rw [if_pos hl, if_pos hl.symm]
      simp only [Option.map_some', negNP]
      exact congrArg (fun l => some (NP.a1 l)) (zipWith_sub_comm_neg xs ys)
    · rw [if_neg hl, if_neg (fun hh => hl hh.symm)]
      rfl
  case a2.a2 xss yss =>
    by_cases hs : shape (.a2 xss) = shape (.a2 yss)
    · rw [if_pos hs, if_pos hs.symm]
      simp only [Option.map_some', negNP]
      exact congrArg (fun l => some (NP.a2 l)) (zipWith2_sub_comm_neg xss yss)
    · rw [if_neg hs, if_neg (fun hh => hs hh.symm)]
      rfl
  case a3.a3 xsss ysss =>
    by_cases hs : shape (.a3 xsss) = shape (.a3 ysss)
    · rw [if_pos hs, if_pos hs.symm]
      simp only [Option.map_some', negNP]
      exact congrArg (fun l => some (NP.a3 l)) (zipWith3_sub_comm_neg xsss ysss)
    · rw [if_neg hs, if_neg (fun hh => hs hh.symm)]
      rfl

/-- A successful elementwise subtraction forces equal row counts. -/
theorem rows_eq_of_npSub {a b d : NP} (h : npSub a b = some d) : rows a = rows b := by
  cases a <;> cases b <;> simp [npSub] at h <;> try rfl
  case a1.a1 xs ys => simp [rows, shape, h.1]
  case a2.a2 xss yss => simp only [rows, h.1]
  case a3.a3 xsss ysss => simp only [rows, h.1]

/-- The difference `T - T` has only zero entries. -/
theorem npSub_self_entries {T d : NP} (h : npSub T T = some d) :
    ∀ x ∈ entries d, x = 0 := by
  cases T <;> simp [npSub] at h <;> subst h
  case a0 x => simp [entries]
  case a1 xs =>
    simp only [entries]
    intro x hx
    exact List.eq_of_mem_replicate hx
  case a2 xss =>
    simp only [entries, List.mem_flatten, List.mem_map]
    rintro x ⟨l, ⟨r, -, rfl⟩, hx⟩
    exact List.eq_of_mem_replicate hx
  case a3 xsss =>
    simp only [entries, List.mem_flatten, List.mem_map]
    rintro x ⟨l, ⟨p', ⟨p, -, rfl⟩, rfl⟩, hx⟩
    simp only [List.mem_flatten, List.mem_map] at hx
    rcases hx with ⟨l', ⟨r, -, rfl⟩, hx⟩
    exact List.eq_of_mem_replicate hx

theorem headD_len_map_neg (d : List (List Int)) :
    ((d.map (fun r => r.map (fun a => -a))).headD []).length = (d.headD []).length := by
  cases d <;> simp

/-- Negating the second einsum operand negates the contraction. -/
theorem npEinsum_neg (s : List Char) (a b : NP) :
    npEinsum s a (negNP b) = Option.map negNP (npEinsum s a b) := by
  unfold npEinsum
  by_cases h1 : s = esBase
  · simp only [if_pos h1]
    cases a <;> cases b <;> try rfl
    case pos.a3.a2 e d =>
      dsimp only [negNP]
      simp only [List.length_map, headD_len_map_neg]
      split_ifs with hg
      · simp only [Option.map_some', negNP]
        rw [List.zipWith_map_right, List.map_zipWith]
        simp [List.map_map, Function.comp_def, dot_neg_right]
      · rfl
  · simp only [if_neg h1]
    by_cases h2 : s = esMV
    · simp only [if_pos h2]
      cases a <;> cases b <;> try rfl
      case pos.a2.a1 e d =>
        dsimp only [negNP]
        simp only [List.length_map]
        split_ifs with hg
        · simp only [Option.map_some', negNP]
          rw [List.zipWith_map_right, List.map_zipWith]
          simp [List.map_map, Function.comp_def, mul_neg]
        · rfl
    · simp only [if_neg h2]
      by_cases h3 : s = esVM
      · simp only [if_pos h3]
        cases a <;> cases b <;> try rfl
        case pos.a2.a2 e d =>
          dsimp only [negNP]
          simp only [List.length_map, headD_len_map_neg]
          split_ifs with hg
          · simp only [Option.map_some', negNP]
            rw [List.zipWith_map_right, List.map_zipWith]
            simp [dot_neg_right]
          · rfl
      · simp only [if_neg h3]
        by_cases h4 : s = esVV
        · simp only [if_pos h4]
          cases a <;> cases b <;> try rfl
          case pos.a1.a1 e d =>
            dsimp only [negNP]
            simp only [List.length_map]
            split_ifs with hg
            · simp only [Option.map_some', negNP]
              rw [List.zipWith_map_right, List.map_zipWith]
              simp [mul_neg]
            · rfl
        · simp only [if_neg h4]
          rfl

/-- Contracting against an all-zero second operand yields all-zero entries. -/
theorem npEinsum_zero {s : List Char} {a b R : NP} (hb : ∀ x ∈ entries b, x = 0)
    (h : npEinsum s a b = some R) : ∀ x ∈ entries R, x = 0 := by
  unfold npEinsum at h
  by_cases h1 : s = esBase
  · rw [if_pos h1] at h
    cases a <;> cases b <;> try exact Option.noConfusion h
    case pos.a3.a2 e d =>
      dsimp only at h
      split_ifs at h with hg
      injection h with h
      subst h
      simp only [entries, List.mem_flatten]
      rintro x ⟨row, hrow, hx⟩
      rcases mem_of_zipWith hrow with ⟨em, -, dm, hdm, rfl⟩
      simp only [List.mem_map] at hx
      rcases hx with ⟨ey, -, rfl⟩
      have hzd : ∀ y ∈ dm, y = 0 :=
        fun y hy => hb y (List.mem_flatten.mpr ⟨dm, hdm, hy⟩)
      exact dot_zero_right hzd ey
  · rw [if_neg h1] at h
    by_cases h2 : s = esMV
    · rw [if_pos h2] at h
      cases a <;> cases b <;> try exact Option.noConfusion h
      case pos.a2.a1 e d =>
        dsimp only at h
        split_ifs at h with hg
        injection h with h
        subst h
        simp only [entries, List.mem_flatten]
        rintro x ⟨row, hrow, hx⟩
        rcases mem_of_zipWith hrow with ⟨em, -, dv, hdv, rfl⟩
        simp only [List.mem_map] at hx
        rcases hx with ⟨ey, -, rfl⟩
        rw [hb dv hdv, mul_zero]
    · rw [if_neg h2] at h
      by_cases h3 : s = esVM
      · rw [if_pos h3] at h
        cases a <;> cases b <;> try exact Option.noConfusion h
        case pos.a2.a2 e d =>
          dsimp only at h
          split_ifs at h with hg
          injection h with h
          subst h
          simp only [entries]
          intro x hx
          rcases mem_of_zipWith hx with ⟨em, -, dm, hdm, rfl⟩
          have hzd : ∀ y ∈ dm, y = 0 :=
            fun y hy => hb y (List.mem_flatten.mpr ⟨dm, hdm, hy⟩)
          exact dot_zero_right hzd em
      · rw [if_neg h3] at h
        by_cases h4 : s = esVV
        · rw [if_pos h4] at h
          cases a <;> cases b <;> try exact Option.noConfusion h
          case pos.a1.a1 e d =>
            dsimp only at h
            split_ifs at h with hg
            injection h with h
            subst h
            simp only [entries]
            intro x hx
            rcases mem_of_zipWith hx with ⟨ea, -, db, hdb, rfl⟩
            rw [hb db hdb, mul_zero]
        · rw [if_neg h4] at h
          exact Option.noConfusion h

/-- Any successful `effect` call went through `T1 - T0` and one einsum. -/
theorem effect_eq_some {xNone : Bool} {cme T0 T1 R : NP}
    (h : effect xNone cme T0 T1 = some R) :
    ∃ eff dT, npSub T1 T0 = some dT ∧ npEinsum (einsumStr eff dT) eff dT = some R := by
  simp only [effect] at h
  cases hEO : (if xNone then
      (match rows T0 with | some r => npRepeat0 cme r | none => none)
      else some cme) with
  | none => rw [hEO] at h; exact Option.noConfusion h
  | some eff =>
    rw [hEO] at h
    dsimp only at h
    cases hre : rows eff with
    | none => rw [hre] at h; exact Option.noConfusion h
    | some m =>
      rw [hre] at h
      dsimp only at h
      cases hsub : npSub T1 T0 with
      | none => rw [hsub] at h; exact Option.noConfusion h
      | some dT =>
        rw [hsub] at h
        dsimp only at h
        exact ⟨eff, dT, rfl, h⟩

/-- Propagation: `effect` fails when the elementwise difference does. -/
theorem effect_none_of_sub (xNone : Bool) (cme : NP) {T0 T1 : NP}
    (h : npSub T1 T0 = none) : effect xNone cme T0 T1 = none := by
  simp only [effect, h]
  cases (if xNone then
      (match rows T0 with | some r => npRepeat0 cme r | none => none)
      else some cme) with
  | none => rfl
  | some eff =>
    dsimp only
    cases rows eff <;> rfl

/-! ### Spec-side definitions for the effect contraction (claim C1)

These follow the specification's wording, not the source: the result entry
at `[m, y]` is `Σ_t eff[m,y,t]·dT[m,t]`, with the `y` axis dropped when
`Y` is a vector and the `t` axis dropped when `T` is a vector, where
`dT = T1 - T0` entrywise and `eff` is `const_marginal_effect(X)`,
broadcast-repeated along axis 0 to the row count of `T0` when `X` is
`None` (in which case it has one row). -/

/-- Entry `a[i][j]` with zero defaults. -/
def idx2 (a : List (List Int)) (i j : Nat) : Int := (a.getD i []).getD j 0

/-- Entry `a[i][j][k]` with zero defaults. -/
def idx3 (a : List (List (List Int))) (i j k : Nat) : Int :=
  ((a.getD i []).getD j []).getD k 0

/-- Spec: when `X` is `None` the one-row `eff` is repeated to `mm` rows. -/
def specRepRows {α : Type} (xNone : Bool) (mm : Nat) (d : α) (cme : List α) : List α :=
  if xNone then List.replicate mm (cme.headD d) else cme

/-- Spec: `dT = T1 - T0` entrywise, matrix case. -/
def specSubM (mm dt : Nat) (T0 T1 : List (List Int)) : List (List Int) :=
  (List.range mm).map (fun i => (List.range dt).map (fun j => idx2 T1 i j - idx2 T0 i j))

/-- Spec: `dT = T1 - T0` entrywise, vector case. -/
def specSubV (mm : Nat) (T0 T1 : List Int) : List Int :=
  (List.range mm).map (fun i => T1.getD i 0 - T0.getD i 0)

/-- Spec contraction, `Y` matrix and `T` matrix: `out[m,y] = Σ_t eff[m,y,t]·dT[m,t]`. -/
def specContractMM (mm dy dt : Nat) (eff : List (List (List Int)))
    (dT : List (List Int)) : List (List Int) :=
  (List.range mm).map (fun i => (List.range dy).map (fun y =>
    ((List.range dt).map (fun t => idx3 eff i y t * idx2 dT i t)).sum))

/-- Spec contraction, `Y` matrix and `T` vector (`t` axis dropped):
`out[m,y] = eff[m,y]·dT[m]`. -/
def specContractMV (mm dy : Nat) (eff : List (List Int)) (dT : List Int) :
    List (List Int) :=
  (List.range mm).map (fun i => (List.range dy).map (fun y => idx2 eff i y * dT.getD i 0))

/-- Spec contraction, `Y` vector and `T` matrix (`y` axis dropped):
`out[m] = Σ_t eff[m,t]·dT[m,t]`. -/
def specContractVM (mm dt : Nat) (eff dT : List (List Int)) : List Int :=
  (List.range mm).map (fun i =>
    ((List.range dt).map (fun t => idx2 eff i t * idx2 dT i t)).sum)

/-- Spec contraction, `Y` vector and `T` vector (both axes dropped):
`out[m] = eff[m]·dT[m]`. -/
def specContractVV (mm : Nat) (eff dT : List Int) : List Int :=
  (List.range mm).map (fun i => eff.getD i 0 * dT.getD i 0)

/-! ### Index-based reformulation lemmas -/

theorem getD_of_lt {α : Type} (xs : List α) (i : Nat) (d : α) (h : i < xs.length) :
    xs.getD i d = xs[i] := by
  rw [List.getD_eq_getElem?_getD, List.getElem?_eq_getElem h, Option.getD_some]

theorem zipWith_eq_range_map {α β γ : Type} (f : α → β → γ) (xs : List α) (ys : List β)
    (dx : α) (dy' : β) {n : Nat} (hx : xs.length = n) (hy : ys.length = n) :
    List.zipWith f xs ys =
      (List.range n).map (fun i => f (xs.getD i dx) (ys.getD i dy')) := by
  apply List.ext_getElem
  · simp [hx, hy]
  · intro i h1 h2
    have hix : i < xs.length := by rw [hx]; simpa using h2
    have hiy : i < ys.length := by rw [hy]; simpa using h2
    simp only [List.getElem_zipWith, List.getElem_map, List.getElem_range]
    rw [getD_of_lt xs i dx hix, getD_of_lt ys i dy' hiy]

theorem map_eq_range_map {α γ : Type} (f : α → γ) (xs : List α) (d : α) {n : Nat}
    (hx : xs.length = n) :
    xs.map f = (List.range n).map (fun i => f (xs.getD i d)) := by
  apply List.ext_getElem
  · simp [hx]
  · intro i h1 h2
    have hix : i < xs.length := by rw [hx]; simpa using h2
    simp only [List.getElem_map, List.getElem_range]
    rw [getD_of_lt xs i d hix]

theorem dot_eq_range_sum {xs ys : List Int} {n : Nat} (hx : xs.length = n)
    (hy : ys.length = n) :
    dot xs ys = ((List.range n).map (fun t => xs.getD t 0 * ys.getD t 0)).sum := by
  unfold dot
  rw [zipWith_eq_range_map (fun a b => a * b) xs ys 0 0 hx hy]

theorem getD_mem_of_rect {L : List (List Int)} {dt : Nat} {i : Nat}
    (hr : ∀ r ∈ L, r.length = dt) (hi : i < L.length) : (L.getD i []).length = dt := by
  rw [getD_of_lt L i [] hi]
  exact hr L[i] (L.getElem_mem hi)

theorem headD_length_rect {L : List (List Int)} {dt : Nat}
    (hr : ∀ r ∈ L, r.length = dt) :
    (L.headD []).length = if L.length = 0 then 0 else dt := by
  cases L with
  | nil => simp
  | cons r rs => simpa using hr r (by simp)

theorem flatten_replicate_length {α : Type} (L : List α) (k : Nat) :
    (List.flatten (L.map (fun x => List.replicate k x))).length = L.length * k := by
  induction L with
  | nil => simp
  | cons x xs ih => simp [ih]; ring

theorem getD_mem {α : Type} (L : List α) (i : Nat) (d : α) (hi : i < L.length) :
    L.getD i d ∈ L := by
  rw [getD_of_lt L i d hi]
  exact L.getElem_mem hi

theorem npSubM_eq_spec {T0 T1 : List (List Int)} {mm dt : Nat}
    (h0 : T0.length = mm) (h0r : ∀ r ∈ T0, r.length = dt)
    (h1 : T1.length = mm) (h1r : ∀ r ∈ T1, r.length = dt) :
    List.zipWith (fun r s => List.zipWith (fun a b => a - b) r s) T1 T0 =
      specSubM mm dt T0 T1 := by
  rw [zipWith_eq_range_map _ T1 T0 [] [] h1 h0]
  unfold specSubM
  apply List.map_congr_left
  intro i hi
  have him : i < mm := List.mem_range.mp hi
  exact zipWith_eq_range_map (fun a b => a - b) _ _ 0 0
    (getD_mem_of_rect h1r (by omega)) (getD_mem_of_rect h0r (by omega))

theorem npSubV_eq_spec {T0 T1 : List Int} {mm : Nat}
    (h0 : T0.length = mm) (h1 : T1.length = mm) :
    List.zipWith (fun a b => a - b) T1 T0 = specSubV mm T0 T1 :=
  zipWith_eq_range_map (fun a b => a - b) T1 T0 0 0 h1 h0

theorem contractMM_eq_spec {E : List (List (List Int))} {D : List (List Int)}
    {mm dy dt : Nat} (hEl : E.length = mm) (hEy : ∀ p ∈ E, p.length = dy)
    (hEt : ∀ p ∈ E, ∀ q ∈ p, q.length = dt)
    (hDl : D.length = mm) (hDr : ∀ r ∈ D, r.length = dt) :
    List.zipWith (fun em dm => em.map (fun ey => dot ey dm)) E D =
      specContractMM mm dy dt E D := by
  rw [zipWith_eq_range_map _ E D [] [] hEl hDl]
  unfold specContractMM
  apply List.map_congr_left
  intro i hi
  have him : i < mm := List.mem_range.mp hi
  have hiE : i < E.length := by omega
  have hiD : i < D.length := by omega
  have hmemE : E.getD i [] ∈ E := getD_mem E i [] hiE
  rw [map_eq_range_map _ (E.getD i []) [] (hEy _ hmemE)]
  apply List.map_congr_left
  intro y hy
  have hyd : y < dy := List.mem_range.mp hy
  have hyE : y < (E.getD i []).length := by rw [hEy _ hmemE]; omega
  have hq : ((E.getD i []).getD y []).length = dt :=
    hEt _ hmemE _ (getD_mem _ y [] hyE)
  have hdm : (D.getD i []).length = dt := getD_mem_of_rect hDr hiD
  rw [dot_eq_range_sum hq hdm]
  rfl

theorem contractMV_eq_spec {E : List (List Int)} {D : List Int} {mm dy : Nat}
    (hEl : E.length = mm) (hEy : ∀ p ∈ E, p.length = dy) (hDl : D.length = mm) :
    List.zipWith (fun em x => em.map (fun ey => ey * x)) E D =
      specContractMV mm dy E D := by
  rw [zipWith_eq_range_map _ E D [] 0 hEl hDl]
  unfold specContractMV
  apply List.map_congr_left
  intro i hi
  have him : i < mm := List.mem_range.mp hi
  have hiE : i < E.length := by omega
  exact map_eq_range_map _ (E.getD i []) 0 (hEy _ (getD_mem E i [] hiE))

theorem contractVM_eq_spec {E D : List (List Int)} {mm dt : Nat}
    (hEl : E.length = mm) (hEr : ∀ p ∈ E, p.length = dt)
    (hDl : D.length = mm) (hDr : ∀ r ∈ D, r.length = dt) :
    List.zipWith dot E D = specContractVM mm dt E D := by
  rw [zipWith_eq_range_map dot E D [] [] hEl hDl]
  unfold specContractVM
  apply List.map_congr_left
  intro i hi
  have him : i < mm := List.mem_range.mp hi
  have hiE : i < E.length := by omega
  have hiD : i < D.length := by omega
  exact dot_eq_range_sum (getD_mem_of_rect hEr hiE) (getD_mem_of_rect hDr hiD)

theorem contractVV_eq_spec {E D : List Int} {mm : Nat}
    (hEl : E.length = mm) (hDl : D.length = mm) :
    List.zipWith (fun x y => x * y) E D = specContractVV mm E D :=
  zipWith_eq_range_map (fun x y => x * y) E D 0 0 hEl hDl

/-- Reduction of `effect` once the intermediate values are known. -/
theorem effect_reduce {xNone : Bool} {cme T0 T1 E dT : NP}
    (hE : (if xNone then
        (match rows T0 with | some r => npRepeat0 cme r | none => none)
        else some cme) = some E)
    (hrE : (rows E).isSome)
    (hsub : npSub T1 T0 = some dT) :
    effect xNone cme T0 T1 = npEinsum (einsumStr E dT) E dT := by
  simp only [effect, hE, hsub]
  try dsimp only
  cases hrow : rows E with
  | none => rw [hrow] at hrE; simp at hrE
  | some m => rfl

theorem head_head_len_rect {E : List (List (List Int))} {mm dy dt : Nat}
    (hEl : E.length = mm) (hEy : ∀ p ∈ E, p.length = dy)
    (hEt : ∀ p ∈ E, ∀ q ∈ p, q.length = dt) (hdy : 0 < dy) :
    ((E.headD []).headD []).length = if mm = 0 then 0 else dt := by
  cases E with
  | nil =>
    have hmm : mm = 0 := by simpa using hEl.symm
    simp [hmm]
  | cons p ps =>
    have hmm : mm ≠ 0 := by
      simp only [List.length_cons] at hEl
      omega
    rw [if_neg hmm]
    simp only [List.headD_cons]
    have hplen : p.length = dy := hEy p (by simp)
    cases p with
    | nil => rw [← hplen] at hdy; simp at hdy
    | cons q qs =>
      simp only [List.headD_cons]
      exact hEt (q :: qs) (by simp) q (by simp)

/-- C1, case `Y` matrix / `T` matrix (with or without `X`):
`effect` equals the spec contraction `Σ_t eff[m,y,t]·dT[m,t]`. -/
theorem effectMM_spec (xNone : Bool) {cme : List (List (List Int))}
    {T0 T1 : List (List Int)} {mm dy dt : Nat} (hdy : 0 < dy)
    (hc : cme.length = if xNone then 1 else mm)
    (hcy : ∀ p ∈ cme, p.length = dy)
    (hct : ∀ p ∈ cme, ∀ q ∈ p, q.length = dt)
    (h0 : T0.length = mm) (h0r : ∀ r ∈ T0, r.length = dt)
    (h1 : T1.length = mm) (h1r : ∀ r ∈ T1, r.length = dt) :
    effect xNone (.a3 cme) (.a2 T0) (.a2 T1) =
      some (.a2 (specContractMM mm dy dt (specRepRows xNone mm [] cme)
        (specSubM mm dt T0 T1))) := by
  have hE0len : (specRepRows xNone mm ([] : List (List Int)) cme).length = mm := by
    cases xNone with
    | false => simpa [specRepRows] using hc
    | true => simp [specRepRows]
  have hc1 : xNone = true → ∃ c0, cme = [c0] := by
    intro hx
    exact List.length_eq_one.mp (by rw [hc, hx]; rfl)
  have hE0y : ∀ p ∈ specRepRows xNone mm ([] : List (List Int)) cme, p.length = dy := by
    cases xNone with
    | false => simpa [specRepRows] using hcy
    | true =>
      rcases hc1 rfl with ⟨c0, hc0⟩
      intro p hp
      simp [specRepRows, hc0] at hp
      rcases hp with ⟨-, hpc⟩
      rw [hpc]
      exact hcy c0 (by simp [hc0])
  have hE0t : ∀ p ∈ specRepRows xNone mm ([] : List (List Int)) cme,
      ∀ q ∈ p, q.length = dt := by
    cases xNone with
    | false => simpa [specRepRows] using hct
    | true =>
      rcases hc1 rfl with ⟨c0, hc0⟩
      intro p hp
      simp [specRepRows, hc0] at hp
      rcases hp with ⟨-, hpc⟩
      rw [hpc]
      exact hct c0 (by simp [hc0])
  have hDlen : (specSubM mm dt T0 T1).length = mm := by simp [specSubM]
  have hDr : ∀ r ∈ specSubM mm dt T0 T1, r.length = dt := by
    intro r hr
    simp only [specSubM, List.mem_map] at hr
    rcases hr with ⟨i, -, rfl⟩
    simp
  have hshape : shape (NP.a2 T1) = shape (NP.a2 T0) := by
    simp only [shape, headD_length_rect h0r, headD_length_rect h1r, h0, h1]
  have hsub : npSub (NP.a2 T1) (NP.a2 T0) =
      some (.a2 (specSubM mm dt T0 T1)) := by
    simp only [npSub, if_pos hshape]
    rw [npSubM_eq_spec h0 h0r h1 h1r]
  have hE : (if xNone then
      (match rows (NP.a2 T0) with
        | some r => npRepeat0 (NP.a3 cme) r
        | none => none)
      else some (NP.a3 cme)) =
      some (NP.a3 (specRepRows xNone mm ([] : List (List Int)) cme)) := by
    cases xNone with
    | false => rfl
    | true =>
      rcases hc1 rfl with ⟨c0, hc0⟩
      simp [rows, shape, npRepeat0, specRepRows, hc0, h0]
  rw [effect_reduce hE (by simp [rows, shape]) hsub]
  have hstr : einsumStr (NP.a3 (specRepRows xNone mm ([] : List (List Int)) cme))
      (NP.a2 (specSubM mm dt T0 T1)) = esBase := rfl
  rw [hstr]
  have hguard : (specRepRows xNone mm ([] : List (List Int)) cme).length =
        (specSubM mm dt T0 T1).length ∧
      (((specRepRows xNone mm ([] : List (List Int)) cme).headD []).headD []).length =
        ((specSubM mm dt T0 T1).headD []).length := by
    constructor
    · rw [hE0len, hDlen]
    · rw [head_head_len_rect hE0len hE0y hE0t hdy, headD_length_rect hDr, hDlen]
  simp only [npEinsum, if_pos rfl]
  rw [if_pos hguard]
  rw [contractMM_eq_spec hE0len hE0y hE0t hDlen hDr]
  rfl

/-- C1, case `Y` matrix / `T` vector (with or without `X`):
the `t` axis is dropped and `effect[m,y] = eff[m,y]·dT[m]`. -/
theorem effectMV_spec (xNone : Bool) {cme : List (List Int)} {T0 T1 : List Int}
    {mm dy : Nat}
    (hc : cme.length = if xNone then 1 else mm)
    (hcy : ∀ p ∈ cme, p.length = dy)
    (h0 : T0.length = mm) (h1 : T1.length = mm) :
    effect xNone (.a2 cme) (.a1 T0) (.a1 T1) =
      some (.a2 (specContractMV mm dy (specRepRows xNone mm [] cme)
        (specSubV mm T0 T1))) := by
  have hE0len : (specRepRows xNone mm ([] : List Int) cme).length = mm := by
    cases xNone with
    | false => simpa [specRepRows] using hc
    | true => simp [specRepRows]
  have hc1 : xNone = true → ∃ c0, cme = [c0] := by
    intro hx
    exact List.length_eq_one.mp (by rw [hc, hx]; rfl)
  have hE0y : ∀ p ∈ specRepRows xNone mm ([] : List Int) cme, p.length = dy := by
    cases xNone with
    | false => simpa [specRepRows] using hcy
    | true =>
      rcases hc1 rfl with ⟨c0, hc0⟩
      intro p hp
      simp [specRepRows, hc0] at hp
      rcases hp with ⟨-, hpc⟩
      rw [hpc]
      exact hcy c0 (by simp [hc0])
  have hDlen : (specSubV mm T0 T1).length = mm := by simp [specSubV]
  have hsub : npSub (NP.a1 T1) (NP.a1 T0) = some (.a1 (specSubV mm T0 T1)) := by
    simp only [npSub, if_pos (h1.trans h0.symm)]
    rw [npSubV_eq_spec h0 h1]
  have hE : (if xNone then
      (match rows (NP.a1 T0) with
        | some r => npRepeat0 (NP.a2 cme) r
        | none => none)
      else some (NP.a2 cme)) =
      some (NP.a2 (specRepRows xNone mm ([] : List Int) cme)) := by
    cases xNone with
    | false => rfl
    | true =>
      rcases hc1 rfl with ⟨c0, hc0⟩
      simp [rows, shape, npRepeat0, specRepRows, hc0, h0]
  rw [effect_reduce hE (by simp [rows, shape]) hsub]
  have hstr : einsumStr (NP.a2 (specRepRows xNone mm ([] : List Int) cme))
      (NP.a1 (specSubV mm T0 T1)) = esMV := rfl
  rw [hstr]
  have hne : ¬(esMV = esBase) := by decide
  unfold npEinsum
  rw [if_neg hne, if_pos rfl]
  dsimp only
  rw [if_pos (hE0len.trans hDlen.symm)]
  rw [contractMV_eq_spec hE0len hE0y hDlen]

/-- C1, case `Y` vector / `T` matrix (with or without `X`):
the `y` axis is dropped and `effect[m] = Σ_t eff[m,t]·dT[m,t]`. -/
theorem effectVM_spec (xNone : Bool) {cme T0 T1 : List (List Int)} {mm dt : Nat}
    (hc : cme.length = if xNone then 1 else mm)
    (hcr : ∀ p ∈ cme, p.length = dt)
    (h0 : T0.length = mm) (h0r : ∀ r ∈ T0, r.length = dt)
    (h1 : T1.length = mm) (h1r : ∀ r ∈ T1, r.length = dt) :
    effect xNone (.a2 cme) (.a2 T0) (.a2 T1) =
      some (.a1 (specContractVM mm dt (specRepRows xNone mm [] cme)
        (specSubM mm dt T0 T1))) := by
  have hE0len : (specRepRows xNone mm ([] : List Int) cme).length = mm := by
    cases xNone with
    | false => simpa [specRepRows] using hc
    | true => simp [specRepRows]
  have hc1 : xNone = true → ∃ c0, cme = [c0] := by
    intro hx
    exact List.length_eq_one.mp (by rw [hc, hx]; rfl)
  have hE0r : ∀ p ∈ specRepRows xNone mm ([] : List Int) cme, p.length = dt := by
    cases xNone with
    | false => simpa [specRepRows] using hcr
    | true =>
      rcases hc1 rfl with ⟨c0, hc0⟩
      intro p hp
      simp [specRepRows, hc0] at hp
      rcases hp with ⟨-, hpc⟩
      rw [hpc]
      exact hcr c0 (by simp [hc0])
  have hDlen : (specSubM mm dt T0 T1).length = mm := by simp [specSubM]
  have hDr : ∀ r ∈ specSubM mm dt T0 T1, r.length = dt := by
    intro r hr
    simp only [specSubM, List.mem_map] at hr
    rcases hr with ⟨i, -, rfl⟩
    simp
  have hshape : shape (NP.a2 T1) = shape (NP.a2 T0) := by
    simp only [shape, headD_length_rect h0r, headD_length_rect h1r, h0, h1]
  have hsub : npSub (NP.a2 T1) (NP.a2 T0) =
      some (.a2 (specSubM mm dt T0 T1)) := by
    simp only [npSub, if_pos hshape]
    rw [npSubM_eq_spec h0 h0r h1 h1r]
  have hE : (if xNone then
      (match rows (NP.a2 T0) with
        | some r => npRepeat0 (NP.a2 cme) r
        | none => none)
      else some (NP.a2 cme)) =
      some (NP.a2 (specRepRows xNone mm ([] : List Int) cme)) := by
    cases xNone with
    | false => rfl
    | true =>
      rcases hc1 rfl with ⟨c0, hc0⟩
      simp [rows, shape, npRepeat0, specRepRows, hc0, h0]
  rw [effect_reduce hE (by simp [rows, shape]) hsub]
  have hstr : einsumStr (NP.a2 (specRepRows xNone mm ([] : List Int) cme))
      (NP.a2 (specSubM mm dt T0 T1)) = esVM := rfl
  rw [hstr]
  have hne1 : ¬(esVM = esBase) := by decide
  have hne2 : ¬(esVM = esMV) := by decide
  unfold npEinsum
  rw [if_neg hne1, if_neg hne2, if_pos rfl]
  dsimp only
  have hguard : (specRepRows xNone mm ([] : List Int) cme).length =
        (specSubM mm dt T0 T1).length ∧
      ((specRepRows xNone mm ([] : List Int) cme).headD []).length =
        ((specSubM mm dt T0 T1).headD []).length := by
    constructor
    · rw [hE0len, hDlen]
    · rw [headD_length_rect hE0r, headD_length_rect hDr, hE0len, hDlen]
  rw [if_pos hguard]
  rw [contractVM_eq_spec hE0len hE0r hDlen hDr]

/-- C1, case `Y` vector / `T` vector (with or without `X`):
both axes are dropped and `effect[m] = eff[m]·dT[m]`. -/
theorem effectVV_spec (xNone : Bool) {cme T0 T1 : List Int} {mm : Nat}
    (hc : cme.length = if xNone then 1 else mm)
    (h0 : T0.length = mm) (h1 : T1.length = mm) :
    effect xNone (.a1 cme) (.a1 T0) (.a1 T1) =
      some (.a1 (specContractVV mm (specRepRows xNone mm 0 cme)
        (specSubV mm T0 T1))) := by
  have hE0len : (specRepRows xNone mm (0 : Int) cme).length = mm := by
    cases xNone with
    | false => simpa [specRepRows] using hc
    | true => simp [specRepRows]
  have hc1 : xNone = true → ∃ c0, cme = [c0] := by
    intro hx
    exact List.length_eq_one.mp (by rw [hc, hx]; rfl)
  have hDlen : (specSubV mm T0 T1).length = mm := by simp [specSubV]
  have hsub : npSub (NP.a1 T1) (NP.a1 T0) = some (.a1 (specSubV mm T0 T1)) := by
    simp only [npSub, if_pos (h1.trans h0.symm)]
    rw [npSubV_eq_spec h0 h1]
  have hE : (if xNone then
      (match rows (NP.a1 T0) with
        | some r => npRepeat0 (NP.a1 cme) r
        | none => none)
      else some (NP.a1 cme)) =
      some (NP.a1 (specRepRows xNone mm (0 : Int) cme)) := by
    cases xNone with
    | false => rfl
    | true =>
      rcases hc1 rfl with ⟨c0, hc0⟩
      simp [rows, shape, npRepeat0, specRepRows, hc0, h0]
  rw [effect_reduce hE (by simp [rows, shape]) hsub]
  have hstr : einsumStr (NP.a1 (specRepRows xNone mm (0 : Int) cme))
      (NP.a1 (specSubV mm T0 T1)) = esVV := rfl
  rw [hstr]
  have hne1 : ¬(esVV = esBase) := by decide
  have hne2 : ¬(esVV = esMV) := by decide
  have hne3 : ¬(esVV = esVM) := by decide
  unfold npEinsum
  rw [if_neg hne1, if_neg hne2, if_neg hne3, if_pos rfl]
  dsimp only
  rw [if_pos (hE0len.trans hDlen.symm)]
  rw [contractVV_eq_spec hE0len hDlen]

/-! ### Claims -/

/-- Claim C1: `LinearCateEstimator.effect(X, T0=T0, T1=T1)` equals the
contraction `effect[m,y] = Σ_t eff[m,y,t]·dT[m,t]` of
`eff = const_marginal_effect(X)` (repeated along axis 0 to the row count
of `T0` when `X` is `None`, where it has one row) with `dT = T1 - T0`,
the `y` axis dropped when `Y` is a vector and the `t` axis dropped when
`T` is a vector, in all four vector/matrix combinations, with or without
`X`. -/
theorem effect_is_marginal_contraction :
    (∀ (xNone : Bool) (cme : List (List (List Int))) (T0 T1 : List (List Int))
        (mm dy dt : Nat), 0 < dy →
        cme.length = (if xNone then 1 else mm) →
        (∀ p ∈ cme, p.length = dy) →
        (∀ p ∈ cme, ∀ q ∈ p, q.length = dt) →
        T0.length = mm → (∀ r ∈ T0, r.length = dt) →
        T1.length = mm → (∀ r ∈ T1, r.length = dt) →
        effect xNone (.a3 cme) (.a2 T0) (.a2 T1) =
          some (.a2 (specContractMM mm dy dt (specRepRows xNone mm [] cme)
            (specSubM mm dt T0 T1))))
    ∧ (∀ (xNone : Bool) (cme : List (List Int)) (T0 T1 : List Int) (mm dy : Nat),
        cme.length = (if xNone then 1 else mm) →
        (∀ p ∈ cme, p.length = dy) →
        T0.length = mm → T1.length = mm →
        effect xNone (.a2 cme) (.a1 T0) (.a1 T1) =
          some (.a2 (specContractMV mm dy (specRepRows xNone mm [] cme)
            (specSubV mm T0 T1))))
    ∧ (∀ (xNone : Bool) (cme T0 T1 : List (List Int)) (mm dt : Nat),
        cme.length = (if xNone then 1 else mm) →
        (∀ p ∈ cme, p.length = dt) →
        T0.length = mm → (∀ r ∈ T0, r.length = dt) →
        T1.length = mm → (∀ r ∈ T1, r.length = dt) →
        effect xNone (.a2 cme) (.a2 T0) (.a2 T1) =
          some (.a1 (specContractVM mm dt (specRepRows xNone mm [] cme)
            (specSubM mm dt T0 T1))))
    ∧ (∀ (xNone : Bool) (cme T0 T1 : List Int) (mm : Nat),
        cme.length = (if xNone then 1 else mm) →
        T0.length = mm → T1.length = mm →
        effect xNone (.a1 cme) (.a1 T0) (.a1 T1) =
          some (.a1 (specContractVV mm (specRepRows xNone mm 0 cme)
            (specSubV mm T0 T1)))) :=
  ⟨fun xNone _ _ _ _ _ _ hdy hc hcy hct h0 h0r h1 h1r =>
      effectMM_spec xNone hdy hc hcy hct h0 h0r h1 h1r,
    fun xNone _ _ _ _ _ hc hcy h0 h1 => effectMV_spec xNone hc hcy h0 h1,
    fun xNone _ _ _ _ _ hc hcr h0 h0r h1 h1r =>
      effectVM_spec xNone hc hcr h0 h0r h1 h1r,
    fun xNone _ _ _ _ hc h0 h1 => effectVV_spec xNone hc h0 h1⟩

/-- Witness for C1: one concrete instance per vector/matrix combination,
alternating the presence of `X`. -/
theorem effect_is_marginal_contraction_witness :
    (effect false (.a3 [[[1, 2]], [[3, 4]]]) (.a2 [[1, 0], [0, 1]])
        (.a2 [[2, 0], [0, 3]]) =
      some (.a2 (specContractMM 2 1 2 (specRepRows false 2 [] [[[1, 2]], [[3, 4]]])
        (specSubM 2 2 [[1, 0], [0, 1]] [[2, 0], [0, 3]]))))
    ∧ (effect true (.a2 [[5, 6]]) (.a1 [0, 0, 0]) (.a1 [1, 2, 3]) =
      some (.a2 (specContractMV 3 2 (specRepRows true 3 [] [[5, 6]])
        (specSubV 3 [0, 0, 0] [1, 2, 3]))))
    ∧ (effect false (.a2 [[1, 2], [3, 4]]) (.a2 [[0, 0], [0, 0]])
        (.a2 [[1, 1], [1, 2]]) =
      some (.a1 (specContractVM 2 2 (specRepRows false 2 [] [[1, 2], [3, 4]])
        (specSubM 2 2 [[0, 0], [0, 0]] [[1, 1], [1, 2]]))))
    ∧ (effect true (.a1 [7]) (.a1 [1, 1]) (.a1 [4, 5]) =
      some (.a1 (specContractVV 2 (specRepRows true 2 0 [7])
        (specSubV 2 [1, 1] [4, 5])))) :=
  ⟨effect_is_marginal_contraction.1 false [[[1, 2]], [[3, 4]]] [[1, 0], [0, 1]]
      [[2, 0], [0, 3]] 2 1 2 (by decide) (by decide) (by decide) (by decide)
      (by decide) (by decide) (by decide) (by decide),
    effect_is_marginal_contraction.2.1 true [[5, 6]] [0, 0, 0] [1, 2, 3] 3 2
      (by decide) (by decide) (by decide) (by decide),
    effect_is_marginal_contraction.2.2.1 false [[1, 2], [3, 4]] [[0, 0], [0, 0]]
      [[1, 1], [1, 2]] 2 2 (by decide) (by decide) (by decide) (by decide)
      (by decide) (by decide),
    effect_is_marginal_contraction.2.2.2 true [7] [1, 1] [4, 5] 2
      (by decide) (by decide) (by decide)⟩

/-- Claim C10: `LinearCateEstimator.effect` (with the default identity
`_expand_treatments`) depends on `T0`, `T1` only through their difference:
(1) replacing `T0`, `T1` by same-shaped `Ta`, `Tb` with `Tb - Ta = T1 - T0`
leaves the result unchanged; (2) `effect(X, T, T)` is the all-zero array;
(3) `effect(X, T0, T1)` is the entrywise negation of `effect(X, T1, T0)`. -/
theorem effect_depends_only_on_diff :
    (∀ (xNone : Bool) (cme T0 T1 Ta Tb : NP),
        shape Ta = shape T0 → npSub Tb Ta = npSub T1 T0 →
        effect xNone cme Ta Tb = effect xNone cme T0 T1)
    ∧ (∀ (xNone : Bool) (cme T R : NP),
        effect xNone cme T T = some R → ∀ x ∈ entries R, x = 0)
    ∧ (∀ (xNone : Bool) (cme T0 T1 : NP),
        effect xNone cme T0 T1 = Option.map negNP (effect xNone cme T1 T0)) := by
  refine ⟨?_, ?_, ?_⟩
  · intro xNone cme T0 T1 Ta Tb hsh hsub
    have hrows : rows Ta = rows T0 := by simp [rows, hsh]
    simp only [effect, hrows, hsub]
  · intro xNone cme T R h
    rcases effect_eq_some h with ⟨eff, dT, hsub, hein⟩
    exact npEinsum_zero (npSub_self_entries hsub) hein
  · intro xNone cme T0 T1
    cases hsub : npSub T1 T0 with
    | none =>
      have hsub' : npSub T0 T1 = none := by
        have hc := npSub_comm_neg T0 T1
        rw [hsub] at hc
        simpa using hc
      rw [effect_none_of_sub xNone cme hsub, effect_none_of_sub xNone cme hsub']
      rfl
    | some dT =>
      have hsub' : npSub T0 T1 = some (negNP dT) := by
        rw [npSub_comm_neg T0 T1, hsub]
        rfl
      have hrows : rows T1 = rows T0 := rows_eq_of_npSub hsub
      simp only [effect, hrows, hsub, hsub']
      cases hEO : (if xNone then
          (match rows T0 with | some r => npRepeat0 cme r | none => none)
          else some cme) with
      | none => rfl
      | some eff =>
        dsimp only
        cases rows eff with
        | none => rfl
        | some m =>
          dsimp only
          have hstr : einsumStr eff (negNP dT) = einsumStr eff dT := by
            simp [einsumStr, ndim_negNP]
          rw [hstr, npEinsum_neg]
          cases npEinsum (einsumStr eff dT) eff dT with
          | none => rfl
          | some R => simp [negNP_negNP]

/-- Witness for C10: concrete instances discharging the hypotheses of the
first two conjuncts. -/
theorem effect_depends_only_on_diff_witness :
    (effect false (NP.a2 [[2]]) (NP.a1 [1]) (NP.a1 [6]) =
      effect false (NP.a2 [[2]]) (NP.a1 [0]) (NP.a1 [5]))
    ∧ (∀ x ∈ entries (NP.a1 [0]), x = 0) :=
  ⟨effect_depends_only_on_diff.1 false (NP.a2 [[2]]) (NP.a1 [0]) (NP.a1 [5])
      (NP.a1 [1]) (NP.a1 [6]) (by decide) (by decide),
    effect_depends_only_on_diff.2.1 false (NP.a1 [2]) (NP.a1 [3]) (NP.a1 [0])
      (by decide)⟩

/-- Claim C7: `LinearCateEstimator.marginal_effect(T, X)` returns
`const_marginal_effect(X)` unchanged when `X` is not `None`; when `X` is
`None` it returns it `np.repeat`-ed along axis 0 `shape(T)[0]` times (for a
one-row constant marginal effect of any rank, that is `rows T` copies of
the single slice); the values in `T` affect the result only through the
row count of `T`. -/
theorem marginal_effect_spec :
    (∀ (cme T : NP), marginalEffect false cme T = some cme)
    ∧ (∀ (cme T : NP) (mm : Nat), rows T = some mm →
        marginalEffect true cme T = npRepeat0 cme mm)
    ∧ (∀ (sl : List (List Int)) (T : NP) (mm : Nat), rows T = some mm →
        marginalEffect true (.a3 [sl]) T = some (.a3 (List.replicate mm sl)))
    ∧ (∀ (r : List Int) (T : NP) (mm : Nat), rows T = some mm →
        marginalEffect true (.a2 [r]) T = some (.a2 (List.replicate mm r)))
    ∧ (∀ (x : Int) (T : NP) (mm : Nat), rows T = some mm →
        marginalEffect true (.a1 [x]) T = some (.a1 (List.replicate mm x)))
    ∧ (∀ (xNone : Bool) (cme T Tb : NP), rows Tb = rows T →
        marginalEffect xNone cme Tb = marginalEffect xNone cme T) := by
  refine ⟨?_, ?_, ?_, ?_, ?_, ?_⟩
  · intro cme T
    rfl
  · intro cme T mm h
    simp [marginalEffect, h]
  · intro sl T mm h
    simp [marginalEffect, h, npRepeat0]
  · intro r T mm h
    simp [marginalEffect, h, npRepeat0]
  · intro x T mm h
    simp [marginalEffect, h, npRepeat0]
  · intro xNone cme T Tb h
    simp only [marginalEffect, h]

/-- Witness for C7: concrete instances discharging the row-count
hypotheses. -/
theorem marginal_effect_spec_witness :
    marginalEffect true (.a2 [[4, 5]]) (NP.a1 [7, 8, 9]) =
      some (.a2 [[4, 5], [4, 5], [4, 5]]) := by
  have h := marginal_effect_spec.2.2.2.1 [4, 5] (NP.a1 [7, 8, 9]) 3 (by decide)
  simpa using h

/-! ### Fit lifecycle (`BaseCateEstimator._wrap_fit` and friends)

The inference strategy objects (`BootstrapInference`, `StatsModelsInference`)
are external collaborators; we model an inference object by its kind plus a
record of the lifecycle calls it has received, so that the order of steps of
`_wrap_fit` is observable in the final state.  The wrapped model-fitting
body (a concrete subclass's `fit`) is an abstract function on estimator
state. -/

/-- Constructors registered in the inference-option registries. -/
inductive InferenceKind where
  | bootstrap
  | statsmodels
deriving DecidableEq

/-- An inference collaborator: its kind and the lifecycle calls it has seen.
`prefitSawFittedModel`/`fitSawFittedModel` record whether the estimator had
already run its model fit when `prefit`/`fit` were invoked on this object. -/
structure InferenceObj where
  kind : InferenceKind
  sawPrefit : Bool
  prefitSawFittedModel : Option Bool
  fitSawFittedModel : Option Bool
deriving DecidableEq

/-- Estimator state touched by this module: the recorded dimensionalities,
the stored inference object, and whether the subclass model fit has run. -/
structure Estimator where
  d_y : Option (List Nat)
  d_t : Option (List Nat)
  d_t_in : Option (List Nat)
  inference : Option InferenceObj
  modelFitted : Bool
deriving DecidableEq

/-- Source `BaseCateEstimator._get_inference_options()`. -/
def getInferenceOptionsBase : List (String × InferenceKind) :=
  [("bootstrap", InferenceKind.bootstrap)]

/-- Source `StatsModelsCateEstimatorMixin._get_inference_options()`:
the parent's options updated with the `statsmodels` entry. -/
def getInferenceOptionsStatsModels : List (String × InferenceKind) :=
  getInferenceOptionsBase ++ [("statsmodels", InferenceKind.statsmodels)]

/-- Python `repr` of the list of registry keys, as `'%s' % [*options]`
renders it. -/
def keysRepr (ks : List String) : String :=
  "[" ++ String.intercalate ", " (ks.map (fun k => "'" ++ k ++ "'")) ++ "]"

/-- The `ValueError` message raised for an unrecognized inference option. -/
def valueErrorMsg (key : String) (opts : List (String × InferenceKind)) : String :=
  "Inference option '" ++ key ++ "' not recognized; valid values are " ++
    keysRepr (opts.map Prod.fst)

/-- A freshly constructed inference object (`options[inference]()`). -/
def newInference (k : InferenceKind) : InferenceObj := ⟨k, false, none, none⟩

/-- The `inference` argument of `fit`: `None`, a string key, or an object. -/
inductive InferenceArg where
  | absent
  | str (s : String)
  | obj (o : InferenceObj)
deriving DecidableEq

/-- Source `BaseCateEstimator._get_inference`: a string is looked up in the options
registry (unknown keys raise `ValueError` naming the key and the valid
keys); the result — `None`, a fresh construction, or the passed object — is
deep-copied.  On these value-semantic objects `deepcopy` is the value
itself; the heap model below (`fitWithSharedInference`) captures the
aliasing consequences of the copy. -/
def getInference (opts : List (String × InferenceKind)) :
    InferenceArg → Except String (Option InferenceObj)
  | .absent => .ok none
  | .str s =>
    match opts.lookup s with
    | some k => .ok (some (newInference k))
    | none => .error (valueErrorMsg s opts)
  | .obj o => .ok (some o)

/-- Source `BaseCateEstimator._prefit`: record `shape(Y)[1:]` and `shape(T)[1:]`. -/
def prefitBase (Y T : NP) (e : Estimator) : Estimator :=
  { e with d_y := some ((shape Y).drop 1), d_t := some ((shape T).drop 1) }

/-- Source `TreatmentExpansionMixin._prefit`: the base prefit, then store the
pre-transform treatment dimensionality `_d_t_in := _d_t`. -/
def prefitMixin (Y T : NP) (e : Estimator) : Estimator :=
  let e1 := prefitBase Y T e
  { e1 with d_t_in := e1.d_t }

/-- Call `inference.prefit(self, Y, T, ...)`: the collaborator records the call
and whether the model had been fitted at that point. -/
def infPrefit (o : InferenceObj) (e : Estimator) : InferenceObj :=
  { o with sawPrefit := true, prefitSawFittedModel := some e.modelFitted }

/-- Call `inference.fit(self, Y, T, ...)`: likewise for the post-fit call. -/
def infFit (o : InferenceObj) (e : Estimator) : InferenceObj :=
  { o with fitSawFittedModel := some e.modelFitted }

/-- The observable steps of a wrapped `fit` call, in execution order. -/
inductive FitEvent where
  | inferenceResolved
  | shapesRecorded
  | inferencePrefit
  | modelFit
  | inferenceFit
deriving DecidableEq

/-- Source `BaseCateEstimator._wrap_fit(m)`: resolve the inference option, call
`self._prefit(Y, T)`, call `inference.prefit` when inference is present,
run the wrapped fit body `m`, call `inference.fit` afterwards, store the
resolved inference object on the estimator, and return the estimator.
The second component is the trace of executed steps; a resolution error
propagates before anything has executed. -/
def wrapFit (opts : List (String × InferenceKind))
    (prefit : NP → NP → Estimator → Estimator) (body : Estimator → Estimator)
    (e : Estimator) (Y T : NP) (inf : InferenceArg) :
    Except String Estimator × List FitEvent :=
  match getInference opts inf with
  | .error msg => (.error msg, [])
  | .ok resolved =>
    let e1 := prefit Y T e
    let pr : Option InferenceObj × List FitEvent :=
      match resolved with
      | some r => (some (infPrefit r e1), [FitEvent.inferencePrefit])
      | none => (none, [])
    let e2 := body e1
    let fr : Option InferenceObj × List FitEvent :=
      match pr.1 with
      | some r => (some (infFit r e2), [FitEvent.inferenceFit])
      | none => (none, [])
    (.ok { e2 with inference := fr.1 },
      [FitEvent.inferenceResolved, FitEvent.shapesRecorded] ++ pr.2 ++
        [FitEvent.modelFit] ++ fr.2)

/-- Claim C2: a wrapped `fit` with a resolvable non-`None` inference
argument performs, in order: inference resolution, shape recording,
`inference.prefit` (before the model fit: it sees an unfitted model), the
wrapped fit body, `inference.fit` (after the model fit completes: it sees
a fitted model); it stores the resolved inference object as `_inference`
and returns the estimator.  The trace lists the executed steps in order;
the returned estimator is the `Except.ok` payload. -/
theorem wrap_fit_lifecycle :
    ∀ (opts : List (String × InferenceKind)) (body : Estimator → Estimator)
      (e : Estimator) (Y T : NP) (inf : InferenceArg) (r0 : InferenceObj),
      getInference opts inf = .ok (some r0) →
      e.modelFitted = false →
      (∀ es, (body es).modelFitted = true) →
      wrapFit opts prefitBase body e Y T inf =
        (.ok { body (prefitBase Y T e) with
            inference := some ⟨r0.kind, true, some false, some true⟩ },
          [FitEvent.inferenceResolved, FitEvent.shapesRecorded,
            FitEvent.inferencePrefit, FitEvent.modelFit, FitEvent.inferenceFit])
        ∧ (prefitBase Y T e).d_y = some ((shape Y).drop 1)
        ∧ (prefitBase Y T e).d_t = some ((shape T).drop 1) := by
  intro opts body e Y T inf r0 hres hmf hbody
  refine ⟨?_, by simp [prefitBase], by simp [prefitBase]⟩
  simp only [wrapFit, hres]
  simp [infPrefit, infFit, prefitBase, hmf, hbody]

/-- Witness for C2: a bootstrap-string inference on a concrete estimator. -/
theorem wrap_fit_lifecycle_witness :
    wrapFit getInferenceOptionsBase prefitBase
        (fun es => { es with modelFitted := true })
        ⟨none, none, none, none, false⟩ (NP.a1 [1, 2]) (NP.a1 [3, 4])
        (.str "bootstrap") =
      (.ok { (fun es => { es with modelFitted := true })
            (prefitBase (NP.a1 [1, 2]) (NP.a1 [3, 4])
              ⟨none, none, none, none, false⟩) with
          inference := some ⟨InferenceKind.bootstrap, true, some false, some true⟩ },
        [FitEvent.inferenceResolved, FitEvent.shapesRecorded,
          FitEvent.inferencePrefit, FitEvent.modelFit, FitEvent.inferenceFit])
      ∧ (prefitBase (NP.a1 [1, 2]) (NP.a1 [3, 4])
          ⟨none, none, none, none, false⟩).d_y =
        some ((shape (NP.a1 [1, 2])).drop 1)
      ∧ (prefitBase (NP.a1 [1, 2]) (NP.a1 [3, 4])
          ⟨none, none, none, none, false⟩).d_t =
        some ((shape (NP.a1 [3, 4])).drop 1) :=
  wrap_fit_lifecycle getInferenceOptionsBase
    (fun es => { es with modelFitted := true })
    ⟨none, none, none, none, false⟩ (NP.a1 [1, 2]) (NP.a1 [3, 4])
    (.str "bootstrap") (newInference InferenceKind.bootstrap)
    rfl rfl (fun _ => rfl)

/-- Claim C5: an unrecognized inference string key makes the wrapped `fit`
raise a `ValueError` naming the key and listing the valid keys, before any
step has executed (the trace is empty: no shape recording, no model fit,
nothing stored on the estimator — no estimator state is returned at all). -/
theorem unknown_inference_key_fails_early :
    ∀ (opts : List (String × InferenceKind))
      (prefit : NP → NP → Estimator → Estimator) (body : Estimator → Estimator)
      (e : Estimator) (Y T : NP) (s : String),
      opts.lookup s = none →
      wrapFit opts prefit body e Y T (.str s) =
        (.error ("Inference option '" ++ s ++
          "' not recognized; valid values are " ++ keysRepr (opts.map Prod.fst)),
          []) := by
  intro opts prefit body e Y T s hlook
  simp [wrapFit, getInference, hlook, valueErrorMsg]

/-- Witness for C5: the unknown key `'not-a-method'` against the base
registry. -/
theorem unknown_inference_key_fails_early_witness :
    wrapFit getInferenceOptionsBase prefitBase (fun es => es)
        ⟨none, none, none, none, false⟩ (NP.a1 [1]) (NP.a1 [2])
        (.str "not-a-method") =
      (.error "Inference option 'not-a-method' not recognized; valid values are ['bootstrap']",
        []) := by
  have h := unknown_inference_key_fails_early getInferenceOptionsBase prefitBase
    (fun es => es) ⟨none, none, none, none, false⟩ (NP.a1 [1]) (NP.a1 [2])
    "not-a-method" (by decide)
  rw [h]
  rfl

/-- Claim C8: after any wrapped `fit` whose body (subclass code outside
this module) does not touch the recorded dimensionalities, `_d_y` and
`_d_t` equal `shape(Y)[1:]` and `shape(T)[1:]` captured from the raw
inputs, and no operation of this module changes them afterwards; with the
`TreatmentExpansionMixin` prefit, `_d_t_in` is additionally set during
prefit to the same tuple as the raw `_d_t` (the base prefit leaves
`_d_t_in` alone). -/
theorem fit_records_shapes_immutably :
    ∀ (opts : List (String × InferenceKind)) (body : Estimator → Estimator)
      (e : Estimator) (Y T : NP) (inf : InferenceArg) (efin : Estimator),
      (∀ es, (body es).d_y = es.d_y ∧ (body es).d_t = es.d_t ∧
        (body es).d_t_in = es.d_t_in) →
      ((wrapFit opts prefitBase body e Y T inf).1 = .ok efin →
        efin.d_y = some ((shape Y).drop 1) ∧ efin.d_t = some ((shape T).drop 1) ∧
        efin.d_t_in = e.d_t_in)
      ∧ ((wrapFit opts prefitMixin body e Y T inf).1 = .ok efin →
        efin.d_y = some ((shape Y).drop 1) ∧ efin.d_t = some ((shape T).drop 1) ∧
        efin.d_t_in = some ((shape T).drop 1)) := by
  intro opts body e Y T inf efin hbody
  constructor
  · intro h
    cases hres : getInference opts inf with
    | error msg =>
      rw [wrapFit, hres] at h
      exact Except.noConfusion h
    | ok resolved =>
      rw [wrapFit, hres] at h
      dsimp only at h
      injection h with h2
      rw [← h2]
      rcases hbody (prefitBase Y T e) with ⟨hb1, hb2, hb3⟩
      dsimp only
      rw [hb1, hb2, hb3]
      simp [prefitBase]
  · intro h
    cases hres : getInference opts inf with
    | error msg =>
      rw [wrapFit, hres] at h
      exact Except.noConfusion h
    | ok resolved =>
      rw [wrapFit, hres] at h
      dsimp only at h
      injection h with h2
      rw [← h2]
      rcases hbody (prefitMixin Y T e) with ⟨hb1, hb2, hb3⟩
      dsimp only
      rw [hb1, hb2, hb3]
      simp [prefitMixin, prefitBase]

/-- Witness for C8: a concrete mixin fit recording `_d_y = (1,)`,
`_d_t = _d_t_in = (2,)`. -/
theorem fit_records_shapes_immutably_witness :
    (⟨some [1], some [2], some [2], none, true⟩ : Estimator).d_y =
        some ((shape (NP.a2 [[1], [2]])).drop 1)
      ∧ (⟨some [1], some [2], some [2], none, true⟩ : Estimator).d_t =
        some ((shape (NP.a2 [[4, 5], [6, 7]])).drop 1)
      ∧ (⟨some [1], some [2], some [2], none, true⟩ : Estimator).d_t_in =
        some ((shape (NP.a2 [[4, 5], [6, 7]])).drop 1) :=
  (fit_records_shapes_immutably getInferenceOptionsBase
    (fun es => { es with modelFitted := true })
    ⟨none, none, none, none, false⟩ (NP.a2 [[1], [2]]) (NP.a2 [[4, 5], [6, 7]])
    .absent ⟨some [1], some [2], some [2], none, true⟩
    (fun _ => ⟨rfl, rfl, rfl⟩)).2 rfl

/-- Claim C9: the base inference-option registry maps exactly the key
`'bootstrap'` to the bootstrap constructor, and the statsmodels mixin's
registry holds exactly the parent's entries plus `'statsmodels'` mapped to
the statsmodels constructor. -/
theorem inference_options_registry :
    (∀ (s : String) (k : InferenceKind),
        getInferenceOptionsBase.lookup s = some k ↔
          (s = "bootstrap" ∧ k = InferenceKind.bootstrap))
    ∧ (∀ (s : String) (k : InferenceKind),
        getInferenceOptionsStatsModels.lookup s = some k ↔
          ((s = "bootstrap" ∧ k = InferenceKind.bootstrap) ∨
            (s = "statsmodels" ∧ k = InferenceKind.statsmodels))) := by
  constructor
  · intro s k
    by_cases hs : s = "bootstrap"
    · subst hs
      simp [getInferenceOptionsBase, List.lookup, eq_comm]
    · simp [getInferenceOptionsBase, List.lookup, hs,
        beq_eq_false_iff_ne.mpr hs]
  · intro s k
    by_cases hs : s = "bootstrap"
    · subst hs
      simp [getInferenceOptionsStatsModels, getInferenceOptionsBase,
        List.lookup, eq_comm]
    · by_cases hs2 : s = "statsmodels"
      · subst hs2
        simp [getInferenceOptionsStatsModels, getInferenceOptionsBase,
          List.lookup, eq_comm, beq_eq_false_iff_ne.mpr hs]
      · simp [getInferenceOptionsStatsModels, getInferenceOptionsBase,
          List.lookup, hs, hs2, beq_eq_false_iff_ne.mpr hs,
          beq_eq_false_iff_ne.mpr hs2]

/-! ### Treatment expansion (`TreatmentExpansionMixin._expand_treatments`) -/

/-- A treatment featurizer/transformer collaborator (`fit`/`transform`
interface; only `transform` is used here). -/
structure Transformer where
  transform : NP → NP

/-- The value of a 0-d array. -/
def scalarVal : NP → Int
  | .a0 x => x
  | _ => 0

/-- Numpy `np.full(sh, v)` for result ranks 1 to 3. -/
def npFull (sh : List Nat) (v : Int) : Option NP :=
  match sh with
  | [n] => some (.a1 (List.replicate n v))
  | [n, d] => some (.a2 (List.replicate n (List.replicate d v)))
  | [n, d, e] =>
    some (.a3 (List.replicate n (List.replicate d (List.replicate e v))))
  | _ => none

/-- The warning text of the source (two adjacent string literals are
concatenated there without a space: "specifyingall"). -/
def warnMsg : String :=
  "A scalar was specified but there are multiple treatments; the same value will be used for each treatment.  Consider specifyingall treatments, or using the const_marginal_effect method."

/-- The source's warning condition:
`(ndim(T) == 0) and self._d_t_in and self._d_t_in[0] > 1`. -/
def warnCond (dtIn : List Nat) (T : NP) : Bool :=
  decide (ndim T = 0) && !dtIn.isEmpty && decide (dtIn.headD 0 > 1)

/-- The loop body of `_expand_treatments`: warn on an ambiguous scalar,
broadcast a 0-d treatment to `(n_rows,) + d_t_in`, then apply the
configured transformer; warnings accumulate in order. -/
def expandLoop (nRows : Nat) (dtIn : List Nat) (tr : Option Transformer) :
    List NP → Option (List NP × List String)
  | [] => some ([], [])
  | T :: rest =>
    let w : List String := if warnCond dtIn T then [warnMsg] else []
    let Tb : Option NP :=
      if ndim T = 0 then npFull (nRows :: dtIn) (scalarVal T) else some T
    match Tb with
    | none => none
    | some t =>
      let t2 := match tr with
        | some f => f.transform t
        | none => t
      match expandLoop nRows dtIn tr rest with
      | none => none
      | some (ts, ws) => some (t2 :: ts, w ++ ws)

/-- Source `TreatmentExpansionMixin._expand_treatments(X, *Ts)`:
`n_rows = 1 if X is None else shape(X)[0]`, then the loop above; returns
`(X, *outTs)` together with the emitted warnings. -/
def expandTreatments (X : Option NP) (dtIn : List Nat) (tr : Option Transformer)
    (Ts : List NP) : Option (Option NP × List NP × List String) :=
  match (match X with | none => some 1 | some x => rows x) with
  | none => none
  | some nRows =>
    match expandLoop nRows dtIn tr Ts with
    | none => none
    | some pair => some (X, pair.1, pair.2)

/-- Total form of `np.full((n_rows,) + d_t_in, v)` for `d_t_in` of length
at most 2. -/
def fullNP (nRows : Nat) (dtIn : List Nat) (v : Int) : NP :=
  match dtIn with
  | [] => .a1 (List.replicate nRows v)
  | [d] => .a2 (List.replicate nRows (List.replicate d v))
  | d :: e :: _ =>
    .a3 (List.replicate nRows (List.replicate d (List.replicate e v)))

/-- Application of an optionally configured transformer. -/
def applyTr (tr : Option Transformer) (T : NP) : NP :=
  match tr with
  | some f => f.transform T
  | none => T

theorem npFull_eq_fullNP (nRows : Nat) {dtIn : List Nat} (v : Int)
    (hlen : dtIn.length ≤ 2) :
    npFull (nRows :: dtIn) v = some (fullNP nRows dtIn v) := by
  match dtIn with
  | [] => rfl
  | [d] => rfl
  | [d, e] => rfl
  | d :: e :: f :: rest => simp at hlen

theorem expandLoop_eq (nRows : Nat) (dtIn : List Nat) (tr : Option Transformer)
    (hlen : dtIn.length ≤ 2) :
    ∀ Ts : List NP, expandLoop nRows dtIn tr Ts =
      some (Ts.map (fun T => applyTr tr
          (if ndim T = 0 then fullNP nRows dtIn (scalarVal T) else T)),
        (Ts.filter (fun T => warnCond dtIn T)).map (fun _ => warnMsg)) := by
  intro Ts
  induction Ts with
  | nil => rfl
  | cons T rest ih =>
    simp only [expandLoop, ih, List.map_cons, List.filter_cons]
    by_cases hnd : ndim T = 0
    · simp only [hnd, if_true, npFull_eq_fullNP nRows (scalarVal T) hlen]
      by_cases hw : warnCond dtIn T
      · simp [hw, applyTr]
      · simp [hw, applyTr]
    · simp only [hnd, if_false]
      by_cases hw : warnCond dtIn T
      · simp [hw, applyTr]
      · simp [hw, applyTr]

/-- Claim C3: `_expand_treatments` broadcasts every 0-d treatment to a
constant array of shape `(n_rows,) + d_t_in` (`n_rows` is 1 without `X`,
else the row count of `X`), warns exactly on the 0-d arguments when
`d_t_in` is non-empty with `d_t_in[0] > 1`, and applies a configured
transformer to every treatment argument of the returned tuple
`(X, *Ts')`. -/
theorem expand_treatments_spec :
    (∀ (X : Option NP) (dtIn : List Nat) (tr : Option Transformer) (Ts : List NP)
        (nRows : Nat),
        (match X with | none => some 1 | some x => rows x) = some nRows →
        dtIn.length ≤ 2 →
        expandTreatments X dtIn tr Ts =
          some (X,
            Ts.map (fun T => applyTr tr
              (if ndim T = 0 then fullNP nRows dtIn (scalarVal T) else T)),
            (Ts.filter (fun T => warnCond dtIn T)).map (fun _ => warnMsg)))
    ∧ (∀ (nRows : Nat) (dtIn : List Nat) (v : Int), 0 < nRows →
        dtIn.length ≤ 1 →
        shape (fullNP nRows dtIn v) = nRows :: dtIn ∧
        ∀ x ∈ entries (fullNP nRows dtIn v), x = v)
    ∧ (∀ (dtIn : List Nat) (T : NP),
        warnCond dtIn T = true ↔
          (ndim T = 0 ∧ dtIn ≠ [] ∧ dtIn.headD 0 > 1)) := by
  refine ⟨?_, ?_, ?_⟩
  · intro X dtIn tr Ts nRows hX hlen
    simp only [expandTreatments, hX, expandLoop_eq nRows dtIn tr hlen Ts]
  · intro nRows dtIn v hpos hlen
    match dtIn with
    | [] =>
      constructor
      · simp [fullNP, shape]
      · intro x hx
        exact List.eq_of_mem_replicate hx
    | [d] =>
      constructor
      · cases nRows with
        | zero => simp at hpos
        | succ n => simp [fullNP, shape, List.replicate_succ]
      · intro x hx
        simp only [fullNP, entries, List.mem_flatten] at hx
        rcases hx with ⟨l, hl, hx⟩
        have := List.eq_of_mem_replicate hl
        subst this
        exact List.eq_of_mem_replicate hx
    | d :: e :: rest => simp at hlen
  · intro dtIn T
    simp [warnCond, List.isEmpty_iff, and_assoc]

/-- Witness for C3: a scalar `5` expanded against `d_t_in = (3,)` over an
`X` with two rows, alongside an already-expanded vector treatment. -/
theorem expand_treatments_spec_witness :
    (expandTreatments (some (.a2 [[1], [2]])) [3] none [.a0 5, .a1 [7, 8]] =
      some (some (.a2 [[1], [2]]),
        [.a2 [[5, 5, 5], [5, 5, 5]], .a1 [7, 8]], [warnMsg]))
    ∧ (shape (fullNP 2 [3] 5) = [2, 3] ∧ ∀ x ∈ entries (fullNP 2 [3] 5), x = 5) := by
  constructor
  · have h := expand_treatments_spec.1 (some (.a2 [[1], [2]])) [3] none
      [.a0 5, .a1 [7, 8]] 2 rfl (by decide)
    rw [h]
    rfl
  · exact expand_treatments_spec.2.1 2 [3] 5 (by decide) (by decide)

/-! ### Deferred-to-inference interval methods
(`BaseCateEstimator._defer_to_inference`) -/

/-- The `self._inference` slot: `unset` models an estimator on which no
`fit` has run (the attribute does not exist); `stored o` models the value
assigned by a wrapped `fit` (`none` when no inference was requested). -/
inductive InfSlot (μ : Type) where
  | unset
  | stored (o : Option μ)

/-- Python's default `AttributeError` message for a missing instance
attribute. -/
def missingAttrMsg (cls attr : String) : String :=
  "'" ++ cls ++ "' object has no attribute '" ++ attr ++ "'"

/-- The `AttributeError` message raised by `_defer_to_inference`:
`"Can't call '%s' because 'inference' is None" % name`. -/
def deferErrMsg (name : String) : String :=
  "Can't call '" ++ name ++ "' because 'inference' is None"

/-- The interval methods of an inference object; the argument and result
types are abstract (each call forwards its arguments unchanged). -/
structure InferenceMethods (α ρ : Type) where
  effect_interval : α → ρ
  marginal_effect_interval : α → ρ
  const_marginal_effect_interval : α → ρ
  coef__interval : α → ρ
  intercept__interval : α → ρ

/-- Source `BaseCateEstimator._defer_to_inference(m)`: reading `self._inference`
on a never-fitted estimator raises Python's missing-attribute
`AttributeError`; a stored `None` raises the decorator's `AttributeError`
naming the method; otherwise the call is forwarded, with the same
arguments, to the identically-named method of the stored inference
object. -/
def deferToInference {α ρ : Type} (cls name : String)
    (call : InferenceMethods α ρ → α → ρ)
    (slot : InfSlot (InferenceMethods α ρ)) (args : α) : Except String ρ :=
  match slot with
  | .unset => .error (missingAttrMsg cls "_inference")
  | .stored none => .error (deferErrMsg name)
  | .stored (some i) => .ok (call i args)

/-- Source `BaseCateEstimator.effect_interval` (decorated). -/
def effect_interval {α ρ : Type} (cls : String)
    (slot : InfSlot (InferenceMethods α ρ)) (args : α) : Except String ρ :=
  deferToInference cls "effect_interval" (fun i => i.effect_interval) slot args

/-- Source `BaseCateEstimator.marginal_effect_interval` (decorated; note that
`LinearCateEstimator` overrides it to delegate through
`const_marginal_effect_interval` instead). -/
def marginal_effect_interval {α ρ : Type} (cls : String)
    (slot : InfSlot (InferenceMethods α ρ)) (args : α) : Except String ρ :=
  deferToInference cls "marginal_effect_interval"
    (fun i => i.marginal_effect_interval) slot args

/-- Source `LinearCateEstimator.const_marginal_effect_interval` (decorated). -/
def const_marginal_effect_interval {α ρ : Type} (cls : String)
    (slot : InfSlot (InferenceMethods α ρ)) (args : α) : Except String ρ :=
  deferToInference cls "const_marginal_effect_interval"
    (fun i => i.const_marginal_effect_interval) slot args

/-- Source `StatsModelsCateEstimatorMixin.coef__interval` (decorated). -/
def coef__interval {α ρ : Type} (cls : String)
    (slot : InfSlot (InferenceMethods α ρ)) (args : α) : Except String ρ :=
  deferToInference cls "coef__interval" (fun i => i.coef__interval) slot args

/-- Source `StatsModelsCateEstimatorMixin.intercept__interval` (decorated). -/
def intercept__interval {α ρ : Type} (cls : String)
    (slot : InfSlot (InferenceMethods α ρ)) (args : α) : Except String ρ :=
  deferToInference cls "intercept__interval"
    (fun i => i.intercept__interval) slot args

/-- Counterexample to C4 as stated: calling a deferred interval method
before any `fit` does raise an `AttributeError`, but it is Python's
missing-attribute error for `_inference`; its message does not name the
called method and does not state that inference is `None`. -/
theorem interval_methods_prefit_counterexample :
    @effect_interval Nat Nat "LinearDMLCateEstimator" InfSlot.unset 0 =
      .error (missingAttrMsg "LinearDMLCateEstimator" "_inference")
    ∧ missingAttrMsg "LinearDMLCateEstimator" "_inference" ≠
      deferErrMsg "effect_interval"
    ∧ ¬("effect_interval".toList <:+:
        (missingAttrMsg "LinearDMLCateEstimator" "_inference").toList) :=
  ⟨rfl, by decide, by decide⟩

/-- Claim C4 (amended): each of the five decorated interval methods
forwards a call with the same arguments to the identically-named method of
the stored inference object when one is present; calling any of them after
a fit in which no inference was requested raises an `AttributeError`
naming the unavailable method and stating that inference is `None`;
calling before any fit raises Python's default `AttributeError` for the
missing `_inference` attribute instead. -/
theorem interval_methods_defer_to_inference :
    ∀ (α ρ : Type) (cls : String) (i : InferenceMethods α ρ) (args : α),
      (effect_interval cls (InfSlot.stored (some i)) args =
          .ok (i.effect_interval args)
        ∧ marginal_effect_interval cls (InfSlot.stored (some i)) args =
          .ok (i.marginal_effect_interval args)
        ∧ const_marginal_effect_interval cls (InfSlot.stored (some i)) args =
          .ok (i.const_marginal_effect_interval args)
        ∧ coef__interval cls (InfSlot.stored (some i)) args =
          .ok (i.coef__interval args)
        ∧ intercept__interval cls (InfSlot.stored (some i)) args =
          .ok (i.intercept__interval args))
      ∧ (@effect_interval α ρ cls (InfSlot.stored none) args =
          .error (deferErrMsg "effect_interval")
        ∧ @marginal_effect_interval α ρ cls (InfSlot.stored none) args =
          .error (deferErrMsg "marginal_effect_interval")
        ∧ @const_marginal_effect_interval α ρ cls (InfSlot.stored none) args =
          .error (deferErrMsg "const_marginal_effect_interval")
        ∧ @coef__interval α ρ cls (InfSlot.stored none) args =
          .error (deferErrMsg "coef__interval")
        ∧ @intercept__interval α ρ cls (InfSlot.stored none) args =
          .error (deferErrMsg "intercept__interval"))
      ∧ (@effect_interval α ρ cls InfSlot.unset args =
          .error (missingAttrMsg cls "_inference")
        ∧ @marginal_effect_interval α ρ cls InfSlot.unset args =
          .error (missingAttrMsg cls "_inference")
        ∧ @const_marginal_effect_interval α ρ cls InfSlot.unset args =
          .error (missingAttrMsg cls "_inference")
        ∧ @coef__interval α ρ cls InfSlot.unset args =
          .error (missingAttrMsg cls "_inference")
        ∧ @intercept__interval α ρ cls InfSlot.unset args =
          .error (missingAttrMsg cls "_inference")) :=
  fun _ _ _ _ _ =>
    ⟨⟨rfl, rfl, rfl, rfl, rfl⟩, ⟨rfl, rfl, rfl, rfl, rfl⟩,
      ⟨rfl, rfl, rfl, rfl, rfl⟩⟩

/-! ### Deep-copy isolation of shared inference instances (claim C6)

A small heap model: inference objects live at numbered references holding
a mutable `InfState`; `_get_inference`'s `deepcopy` is a fresh allocation
holding a copy of the passed object's state, and `inference.fit(self, ...)`
mutates only the estimator's own copy. -/

/-- Mutable inference-object state: which estimator its `fit` recorded.
Interval queries answer from this state. -/
structure InfState where
  fittedEstId : Option Nat
deriving DecidableEq

/-- A heap of inference objects. -/
structure Heap where
  next : Nat
  data : Nat → InfState

/-- Read the state at a reference. -/
def readH (h : Heap) (r : Nat) : InfState := h.data r

/-- Overwrite the state at a reference. -/
def writeH (h : Heap) (r : Nat) (s : InfState) : Heap :=
  ⟨h.next, fun i => if i = r then s else h.data i⟩

/-- Allocate a fresh reference holding `s`. -/
def allocH (h : Heap) (s : InfState) : Heap × Nat :=
  (⟨h.next + 1, fun i => if i = h.next then s else h.data i⟩, h.next)

/-- One wrapped `fit` that was passed the shared inference instance
`passedRef`: `_get_inference` deep-copies it (fresh allocation with a copy
of its state), the later `inference.fit(self, ...)` mutates that copy, and
the copy's reference is stored on the estimator and returned. -/
def fitWithSharedInference (h : Heap) (estId passedRef : Nat) : Heap × Nat :=
  let hr := allocH h (readH h passedRef)
  (writeH hr.1 hr.2 ⟨some estId⟩, hr.2)

/-- An estimator's interval query answers from its stored inference
object's state. -/
def intervalResult (h : Heap) (r : Nat) : Option Nat := (readH h r).fittedEstId

/-- Claim C6: each `fit` stores a deep copy made at resolution time, never
the passed-in inference instance; fitting a second estimator with the same
instance neither changes the first estimator's stored inference state nor
the results its interval methods return, and the passed instance itself is
never mutated. -/
theorem inference_deepcopy_isolation :
    ∀ (h0 : Heap) (e1 e2 r : Nat), r < h0.next →
      (fitWithSharedInference h0 e1 r).2 ≠ r
      ∧ (fitWithSharedInference
          (fitWithSharedInference h0 e1 r).1 e2 r).2 ≠ r
      ∧ (fitWithSharedInference
          (fitWithSharedInference h0 e1 r).1 e2 r).2 ≠
        (fitWithSharedInference h0 e1 r).2
      ∧ readH (fitWithSharedInference h0 e1 r).1
          (fitWithSharedInference h0 e1 r).2 = ⟨some e1⟩
      ∧ readH (fitWithSharedInference
            (fitWithSharedInference h0 e1 r).1 e2 r).1
          (fitWithSharedInference
            (fitWithSharedInference h0 e1 r).1 e2 r).2 = ⟨some e2⟩
      ∧ readH (fitWithSharedInference
            (fitWithSharedInference h0 e1 r).1 e2 r).1
          (fitWithSharedInference h0 e1 r).2 =
        readH (fitWithSharedInference h0 e1 r).1
          (fitWithSharedInference h0 e1 r).2
      ∧ intervalResult (fitWithSharedInference
            (fitWithSharedInference h0 e1 r).1 e2 r).1
          (fitWithSharedInference h0 e1 r).2 =
        intervalResult (fitWithSharedInference h0 e1 r).1
          (fitWithSharedInference h0 e1 r).2
      ∧ readH (fitWithSharedInference
            (fitWithSharedInference h0 e1 r).1 e2 r).1 r = readH h0 r := by
  intro h0 e1 e2 r hr
  have hne1 : h0.next ≠ r := by omega
  have hne2 : h0.next + 1 ≠ r := by omega
  have hne3 : ¬(h0.next = h0.next + 1) := by omega
  have hne4 : ¬(r = h0.next) := by omega
  have hne5 : ¬(r = h0.next + 1) := by omega
  refine ⟨?_, ?_, ?_, ?_, ?_, ?_, ?_, ?_⟩ <;>
    simp [fitWithSharedInference, allocH, writeH, readH, intervalResult,
      hne1, hne2, hne3, hne4, hne5]

/-- Witness for C6: a one-cell heap shared between estimators 10 and 20. -/
theorem inference_deepcopy_isolation_witness :
    (fitWithSharedInference ⟨1, fun _ => ⟨none⟩⟩ 10 0).2 ≠ 0
    ∧ (fitWithSharedInference
        (fitWithSharedInference ⟨1, fun _ => ⟨none⟩⟩ 10 0).1 20 0).2 ≠ 0
    ∧ (fitWithSharedInference
        (fitWithSharedInference ⟨1, fun _ => ⟨none⟩⟩ 10 0).1 20 0).2 ≠
      (fitWithSharedInference ⟨1, fun _ => ⟨none⟩⟩ 10 0).2
    ∧ readH (fitWithSharedInference ⟨1, fun _ => ⟨none⟩⟩ 10 0).1
        (fitWithSharedInference ⟨1, fun _ => ⟨none⟩⟩ 10 0).2 = ⟨some 10⟩
    ∧ readH (fitWithSharedInference
          (fitWithSharedInference ⟨1, fun _ => ⟨none⟩⟩ 10 0).1 20 0).1
        (fitWithSharedInference
          (fitWithSharedInference ⟨1, fun _ => ⟨none⟩⟩ 10 0).1 20 0).2 =
      ⟨some 20⟩
    ∧ readH (fitWithSharedInference
          (fitWithSharedInference ⟨1, fun _ => ⟨none⟩⟩ 10 0).1 20 0).1
        (fitWithSharedInference ⟨1, fun _ => ⟨none⟩⟩ 10 0).2 =
      readH (fitWithSharedInference ⟨1, fun _ => ⟨none⟩⟩ 10 0).1
        (fitWithSharedInference ⟨1, fun _ => ⟨none⟩⟩ 10 0).2
    ∧ intervalResult (fitWithSharedInference
          (fitWithSharedInference ⟨1, fun _ => ⟨none⟩⟩ 10 0).1 20 0).1
        (fitWithSharedInference ⟨1, fun _ => ⟨none⟩⟩ 10 0).2 =
      intervalResult (fitWithSharedInference ⟨1, fun _ => ⟨none⟩⟩ 10 0).1
        (fitWithSharedInference ⟨1, fun _ => ⟨none⟩⟩ 10 0).2
    ∧ readH (fitWithSharedInference
          (fitWithSharedInference ⟨1, fun _ => ⟨none⟩⟩ 10 0).1 20 0).1 0 =
      readH ⟨1, fun _ => ⟨none⟩⟩ 0 :=
  inference_deepcopy_isolation ⟨1, fun _ => ⟨none⟩⟩ 10 20 0 (by decide)

end EconML
